import Mathlib

/-!
Verification development for `src/logging/rust_logging.rs` of the
`off-the-grid` repository: a shallow embedding of the structured-logging
module (JSON formatter, field visitor, correlation spans, sink filters,
initialization and the error-chain helper), together with theorems settling
the specification claims.

Modelling conventions:
* serde_json `Value` is modelled by `JsonValue`.  The module only ever
  builds scalar field values (strings, numbers, booleans) and a single
  top-level object per record, so nested arrays/objects are not needed.
* A JSON object is an association list `JsonRecord`.  serde_json's default
  object representation is a key-ordered map; only the key → value mapping
  is significant, and `insertKV` models `json_log[key] = value`
  (replace the binding if the key is present, insert otherwise).
* Rust `f64` values only flow through this module unchanged (they are never
  computed with), so JSON numbers carry `ℚ`.
* Fallible or ambient effects (`Utc::now`, `std::env::var`, the current
  span, filesystem results, directive parsing) are passed as explicit
  parameters.
-/

namespace RustLogging

/-- Model of `serde_json::Value` restricted to the shapes this module
constructs: null, booleans, numbers and strings. -/
inductive JsonValue where
  | jnull : JsonValue
  | jbool : Bool → JsonValue
  | jnum : ℚ → JsonValue
  | jstr : String → JsonValue
deriving DecidableEq, Repr

/-- A JSON object (`serde_json::Map<String, Value>`), as an association
list.  Only the key → value mapping is significant; serde_json's default
map type is key-ordered. -/
abbrev JsonRecord := List (String × JsonValue)

/-- Lookup of a key in a JSON object. -/
def lookupKV : JsonRecord → String → Option JsonValue
  | [], _ => none
  | (k', v') :: rest, k => if k' = k then some v' else lookupKV rest k

/-- Model of `json_log[key] = value`: replace the binding if the key is
present, append otherwise (serde_json `IndexMut` on an object). -/
def insertKV : JsonRecord → String → JsonValue → JsonRecord
  | [], k, v => [(k, v)]
  | (k', v') :: rest, k, v =>
    if k' = k then (k, v) :: rest else (k', v') :: insertKV rest k v

/-- The key is present in the object. -/
def hasKey (r : JsonRecord) (k : String) : Bool :=
  (lookupKV r k).isSome

@[simp]
theorem lookupKV_nil (k : String) : lookupKV [] k = none := rfl

@[simp]
theorem lookupKV_cons (k k' : String) (v' : JsonValue) (rest : JsonRecord) :
    lookupKV ((k', v') :: rest) k =
      if k' = k then some v' else lookupKV rest k := rfl

@[simp]
theorem lookupKV_insertKV_self (r : JsonRecord) (k : String) (v : JsonValue) :
    lookupKV (insertKV r k v) k = some v := by
  induction r with
  | nil => simp [insertKV]
  | cons hd tl ih =>
    obtain ⟨k', v'⟩ := hd
    by_cases h : k' = k <;> simp [insertKV, h, ih]

theorem lookupKV_insertKV_ne (r : JsonRecord) {k k₂ : String} (v : JsonValue)
    (h : k₂ ≠ k) : lookupKV (insertKV r k₂ v) k = lookupKV r k := by
  induction r with
  | nil => simp [insertKV, h]
  | cons hd tl ih =>
    obtain ⟨k', v'⟩ := hd
    by_cases h' : k' = k₂
    · subst h'
      simp [insertKV, h]
    · simp [insertKV, h']
      by_cases h'' : k' = k <;> simp [h'', ih]

theorem hasKey_insertKV (r : JsonRecord) (k k₂ : String) (v : JsonValue) :
    hasKey (insertKV r k₂ v) k = (k₂ = k || hasKey r k) := by
  by_cases h : k₂ = k
  · subst h
    simp [hasKey]
  · simp [hasKey, lookupKV_insertKV_ne r v h, h]

/-- The `tracing::Level` of an event. -/
inductive Level where
  | error | warn | info | debug | trace
deriving DecidableEq, Repr

/-- Verbosity rank of a level; `error` is the least verbose.  An event of
level `l` passes a filter with maximum level `f` iff
`l.verbosity ≤ f.verbosity`. -/
def Level.verbosity : Level → Nat
  | .error => 1
  | .warn => 2
  | .info => 3
  | .debug => 4
  | .trace => 5

/-- Display rendering of a level (`metadata.level().to_string()`). -/
def Level.render : Level → String
  | .error => "ERROR"
  | .warn => "WARN"
  | .info => "INFO"
  | .debug => "DEBUG"
  | .trace => "TRACE"

/-- Event metadata: level, target, and optional source file / line
(`metadata.file()`, `metadata.line()`). -/
structure Metadata where
  level : Level
  target : String
  file : Option String
  line : Option Nat
deriving DecidableEq, Repr

/-- A value recorded for one event field, tagged with which
`tracing::field::Visit` callback receives it.  `fdebug` carries the string
produced by formatting the value with the `\x7b:?\x7d` formatter (for
`%`-captured Display values this equals their Display rendering, since
`DisplayValue`'s Debug implementation delegates to Display). -/
inductive FieldValue where
  | fstr : String → FieldValue
  | fi64 : Int → FieldValue
  | fu64 : Nat → FieldValue
  | ff64 : ℚ → FieldValue
  | fbool : Bool → FieldValue
  | fdebug : String → FieldValue
deriving DecidableEq, Repr

/-- The name of a field entry. -/
abbrev fieldName (p : String × FieldValue) : String := p.1

/-- State of `JsonVisitor`: the extracted `message` slot and the generic
field map (`HashMap<String, Value>`; an association list whose key → value
mapping is the semantics). -/
structure JsonVisitor where
  message : Option String
  fields : JsonRecord
deriving DecidableEq, Repr

/-- Initial visitor state (`JsonVisitor::new`). -/
def JsonVisitor.new : JsonVisitor := ⟨none, []⟩

/-- One `tracing::field::Visit` callback of `JsonVisitor`, dispatched on
the runtime type of the recorded value exactly as the tracing framework
does.  `record_debug` and `record_str` special-case the field named
"message"; `record_i64`, `record_u64`, `record_f64` and `record_bool`
insert unconditionally. -/
def visitStep (v : JsonVisitor) (name : String) (value : FieldValue) : JsonVisitor :=
  match value with
  | .fstr s =>
    if name = "message" then { v with message := some s }
    else { v with fields := insertKV v.fields name (.jstr s) }
  | .fdebug s =>
    if name = "message" then { v with message := some s }
    else { v with fields := insertKV v.fields name (.jstr s) }
  | .fi64 n => { v with fields := insertKV v.fields name (.jnum n) }
  | .fu64 n => { v with fields := insertKV v.fields name (.jnum n) }
  | .ff64 q => { v with fields := insertKV v.fields name (.jnum q) }
  | .fbool b => { v with fields := insertKV v.fields name (.jbool b) }

/-- Run the visitor over the event's fields in order, from a given state. -/
def runVisitorFrom (v : JsonVisitor) : List (String × FieldValue) → JsonVisitor
  | [] => v
  | (n, val) :: rest => runVisitorFrom (visitStep v n val) rest

/-- Model of `event.record(&mut visitor)` on a fresh `JsonVisitor`. -/
def runVisitor (ev : List (String × FieldValue)) : JsonVisitor :=
  runVisitorFrom JsonVisitor.new ev

/-- A per-span extension entry, as stored in the span's typed extension
map (`tracing_subscriber` registry extensions).  `correlationId` stands
for an entry of Rust type `CorrelationId`; `other` stands for entries of
any other type (e.g. the `FormattedFields` each fmt layer stores). -/
inductive SpanExtension where
  | correlationId : String → SpanExtension
  | other : String → SpanExtension
deriving DecidableEq, Repr

/-- Model of `extensions.get::<CorrelationId>()`: the first extension
entry of type `CorrelationId`, if any. -/
def getCorrelationIdExt : List SpanExtension → Option String
  | [] => none
  | .correlationId id :: _ => some id
  | .other _ :: rest => getCorrelationIdExt rest

/-- Data of the current span as the formatter sees it: its name and its
extension map.  (Span fields are not part of this model because
`format_event` never reads them.) -/
structure SpanData where
  name : String
  extensions : List SpanExtension
deriving DecidableEq, Repr

/-- First stage of `format_event`: the initial `json!` object with the
five base keys, in source order.  `now` is `Utc::now().to_rfc3339()` and
`envVar` the result of `std::env::var("ENVIRONMENT")` (`none` when unset
or unreadable). -/
def baseRecord (now : String) (envVar : Option String) (md : Metadata) : JsonRecord :=
  insertKV (insertKV (insertKV (insertKV (insertKV []
    "timestamp" (.jstr now))
    "level" (.jstr md.level.render))
    "target" (.jstr md.target))
    "service" (.jstr "off-the-grid-cli"))
    "environment" (.jstr ((envVar.getD "development")))

/-- Span-context stage of `format_event`: when `ctx.lookup_current()`
returns a span, add `correlation_id` if a `CorrelationId` extension is
present, then add the span name. -/
def addContext (ctx : Option SpanData) (r : JsonRecord) : JsonRecord :=
  match ctx with
  | none => r
  | some span =>
    let r₁ :=
      match getCorrelationIdExt span.extensions with
      | some id => insertKV r "correlation_id" (.jstr id)
      | none => r
    insertKV r₁ "span" (.jstr span.name)

/-- Message stage of `format_event`: `if let Some(message) = visitor.message`. -/
def addMessage (msg : Option String) (r : JsonRecord) : JsonRecord :=
  match msg with
  | none => r
  | some m => insertKV r "message" (.jstr m)

/-- Custom-fields stage of `format_event`:
`for (key, value) in visitor.fields { json_log[key] = value }`.  The
visitor's map has pairwise-distinct keys, so the (unspecified) HashMap
iteration order does not affect the resulting key → value mapping. -/
def addFields (fs : JsonRecord) (r : JsonRecord) : JsonRecord :=
  fs.foldl (fun acc kv => insertKV acc kv.1 kv.2) r

/-- Source-location stage of `format_event`: add `file` and `line` when
available in the metadata. -/
def addLoc (md : Metadata) (r : JsonRecord) : JsonRecord :=
  let r₁ :=
    match md.file with
    | some f => insertKV r "file" (.jstr f)
    | none => r
  match md.line with
  | some n => insertKV r₁ "line" (.jnum n)
  | none => r₁

/-- Model of `StructuredJsonFormatter::format_event` up to serialization:
the JSON object it builds, with insertions in source order (base metadata,
span context, message, visitor fields, file/line). -/
def format_event (now : String) (envVar : Option String) (md : Metadata)
    (ctx : Option SpanData) (ev : List (String × FieldValue)) : JsonRecord :=
  addLoc md
    (addFields (runVisitor ev).fields
      (addMessage (runVisitor ev).message
        (addContext ctx (baseRecord now envVar md))))

/-- Merge order stated by the specification (claim C3), written from the
spec's words for comparison with `format_event`: base metadata, then
context fields, then visitor-extracted fields, then message (so that the
message would override a colliding visitor field); `file`/`line`, which
the spec's precedence list does not rank, stay last as in the code. -/
def formatEventSpecOrder (now : String) (envVar : Option String) (md : Metadata)
    (ctx : Option SpanData) (ev : List (String × FieldValue)) : JsonRecord :=
  addLoc md
    (addMessage (runVisitor ev).message
      (addFields (runVisitor ev).fields
        (addContext ctx (baseRecord now envVar md))))

/-- Opening brace character, written via its code point. -/
def lbrace : Char := Char.ofNat 123

/-- Closing brace character, written via its code point. -/
def rbrace : Char := Char.ofNat 125

/-- Lower-case hexadecimal digit character. -/
def hexDigitChar (d : Nat) : Char := "0123456789abcdef".data.getD (d % 16) '0'

/-- Four hexadecimal digits of a code point below 256 (only control
characters reach this in practice). -/
def hex4 (n : Nat) : List Char :=
  [hexDigitChar (n / 4096), hexDigitChar (n / 256), hexDigitChar (n / 16), hexDigitChar n]

/-- JSON string escaping of one character, as serde_json's compact writer
performs it: quote, backslash and control characters are escaped, all other
characters pass through. -/
def escapeCharL (c : Char) : List Char :=
  if c = '"' then ['\\', '"']
  else if c = '\\' then ['\\', '\\']
  else if c = '\n' then ['\\', 'n']
  else if c = '\r' then ['\\', 'r']
  else if c = '\t' then ['\\', 't']
  else if c.toNat = 8 then ['\\', 'b']
  else if c.toNat = 12 then ['\\', 'f']
  else if c.toNat < 32 then '\\' :: 'u' :: hex4 c.toNat
  else [c]

/-- JSON string escaping of a character list. -/
def escapeStringL (cs : List Char) : List Char := cs.flatMap escapeCharL

/-- Decimal digit character. -/
def digitChar (d : Nat) : Char := "0123456789".data.getD (d % 10) '0'

/-- Decimal digits of a natural number, most significant first (with fuel;
`natChars` supplies enough). -/
def natDigitsAux : Nat → Nat → List Char
  | 0, _ => []
  | fuel + 1, n => if n = 0 then [] else natDigitsAux fuel (n / 10) ++ [digitChar (n % 10)]

/-- Decimal rendering of a natural number. -/
def natChars (n : Nat) : List Char := if n = 0 then ['0'] else natDigitsAux (n + 1) n

/-- Decimal rendering of a nonnegative rational: integer part, then a
decimal point and fraction digits when the fraction is nonzero.  This
models the decimal rendering serde_json gives the numbers that flow
through this module (which never computes with them); the fuel bounds the
digits of any binary fraction an `f64` can carry. -/
def ratCharsNN (q : ℚ) : List Char :=
  let ip : Nat := ⌊q⌋.toNat
  let frac : ℚ := q - ⌊q⌋
  if frac = 0 then natChars ip
  else natChars ip ++ ('.' :: fracDigitsAux 1200 frac)
where
  /-- Successive decimal digits of a fraction in `[0, 1)`. -/
  fracDigitsAux : Nat → ℚ → List Char
    | 0, _ => []
    | fuel + 1, q =>
      if q = 0 then []
      else
        let q10 := q * 10
        digitChar ⌊q10⌋.toNat :: fracDigitsAux fuel (q10 - ⌊q10⌋)

/-- Decimal rendering of a rational (sign, then magnitude). -/
def ratChars (q : ℚ) : List Char :=
  if q < 0 then '-' :: ratCharsNN (-q) else ratCharsNN q

/-- Compact serialization of one scalar JSON value, as a character list. -/
def serializeValueL : JsonValue → List Char
  | .jnull => "null".data
  | .jbool true => "true".data
  | .jbool false => "false".data
  | .jnum q => ratChars q
  | .jstr s => '"' :: (escapeStringL s.data ++ ['"'])

/-- Compact serialization of one `"key":value` object entry. -/
def serializeEntryL (k : String) (v : JsonValue) : List Char :=
  ('"' :: (escapeStringL k.data ++ ['"', ':'])) ++ serializeValueL v

/-- Compact serialization of an object's entries, comma-separated. -/
def serializeEntriesL : List (String × JsonValue) → List Char
  | [] => []
  | [(k, v)] => serializeEntryL k v
  | (k, v) :: rest => serializeEntryL k v ++ (',' :: serializeEntriesL rest)

/-- Compact serialization of the whole record
(`format!("\x7b\x7d", json_log)` inside `writeln!`). -/
def serializeRecordL (r : JsonRecord) : List Char :=
  lbrace :: (serializeEntriesL r ++ [rbrace])

/-- The full line `format_event` writes:
`writeln!(writer, "\x7b\x7d", json_log)`, i.e. the serialized record
followed by a newline. -/
def formatEventLine (now : String) (envVar : Option String) (md : Metadata)
    (ctx : Option SpanData) (ev : List (String × FieldValue)) : List Char :=
  serializeRecordL (format_event now envVar md ctx ev) ++ ['\n']

/-- Modelled from the documented semantics of
`tracing_subscriber::EnvFilter` (an external collaborator of this module):
a set of directives, each either a bare maximum level (applying to every
target) or a `target=level` pair (applying to targets equal to, or module
children of, the directive's target). -/
structure EnvFilterModel where
  defaultMax : Option Level
  targetDirs : List (String × Level)
deriving DecidableEq, Repr

/-- A directive target matches an event target when they are equal or the
event target is a module child (`dirTarget::...`). -/
def targetMatches (dirTarget evTarget : String) : Bool :=
  evTarget == dirTarget || evTarget.startsWith (dirTarget ++ "::")

/-- The most specific (longest-target) directive matching an event target. -/
def bestDirective (dirs : List (String × Level)) (evTarget : String) :
    Option (String × Level) :=
  dirs.foldl
    (fun best d =>
      if targetMatches d.1 evTarget then
        match best with
        | none => some d
        | some b => if d.1.length > b.1.length then some d else some b
      else best)
    none

/-- Whether an event with the given target and level passes the filter:
the most specific matching target directive decides; otherwise the bare
default level decides; with no matching directive the event is disabled. -/
def envFilterEnabled (f : EnvFilterModel) (evTarget : String) (lvl : Level) : Bool :=
  match bestDirective f.targetDirs evTarget with
  | some d => lvl.verbosity ≤ d.2.verbosity
  | none =>
    match f.defaultMax with
    | some maxLvl => lvl.verbosity ≤ maxLvl.verbosity
    | none => false

/-- Filter of the error-only sink: `EnvFilter::new("error")`. -/
def errorEnvFilter : EnvFilterModel := ⟨some .error, []⟩

/-- Filter of the security-only sink:
`EnvFilter::new("info").add_directive("security=info".parse()?)`. -/
def securityEnvFilter : EnvFilterModel := ⟨some .info, [("security", .info)]⟩

/-- Filter of the performance-only sink:
`EnvFilter::new("info").add_directive("performance=info".parse()?)`. -/
def performanceEnvFilter : EnvFilterModel := ⟨some .info, [("performance", .info)]⟩

/-- Outcomes of the ambient effects `init_logging` performs, passed in
explicitly: the result of `std::fs::create_dir_all`, of
`EnvFilter::try_from_default_env()`, and of parsing the two directive
literals `"security=info"` and `"performance=info"`. -/
structure InitWorld where
  createDirResult : Except String Unit
  envFilterFromEnv : Except String String
  secDirectiveParse : Except String Unit
  perfDirectiveParse : Except String Unit

/-- The process-wide sink set `init_logging` installs on success: the
stdout/file layers' format flag and default filter spec, and the three
fixed category filters. -/
structure InstalledSubscriber where
  defaultFilterSpec : String
  stdoutJson : Bool
  errorFilter : EnvFilterModel
  securityFilter : EnvFilterModel
  performanceFilter : EnvFilterModel
deriving DecidableEq, Repr

/-- Model of `init_logging(log_level, json_format)`: create the log
directory (`?`), build the appenders, fall back to `log_level` when no
filter comes from the environment, parse the security and performance
directives (`?` each), then install the subscriber.  The installed sink
set is the success value; on the error paths nothing is installed. -/
def init_logging (w : InitWorld) (log_level : String) (json_format : Bool) :
    Except String InstalledSubscriber := do
  _ ← w.createDirResult
  let envSpec :=
    match w.envFilterFromEnv with
    | .ok s => s
    | .error _ => log_level
  _ ← w.secDirectiveParse
  _ ← w.perfDirectiveParse
  pure
    { defaultFilterSpec := envSpec
      stdoutJson := json_format
      errorFilter := errorEnvFilter
      securityFilter := securityEnvFilter
      performanceFilter := performanceEnvFilter }

/-- The security event types. -/
inductive SecurityEventType where
  | authenticationAttempt | authenticationFailure | authorizationFailure
  | rateLimitExceeded | suspiciousActivity | configurationChange
  | privilegeEscalation
deriving DecidableEq, Repr

/-- Debug rendering of a security event type (`?event_type`). -/
def SecurityEventType.debugRender : SecurityEventType → String
  | .authenticationAttempt => "AuthenticationAttempt"
  | .authenticationFailure => "AuthenticationFailure"
  | .authorizationFailure => "AuthorizationFailure"
  | .rateLimitExceeded => "RateLimitExceeded"
  | .suspiciousActivity => "SuspiciousActivity"
  | .configurationChange => "ConfigurationChange"
  | .privilegeEscalation => "PrivilegeEscalation"

/-- Level of the event `log_security_event` emits (`tracing::warn!`). -/
def securityEventLevel : Level := .warn

/-- Target of the event `log_security_event` emits (`target: "security"`). -/
def securityEventTarget : String := "security"

/-- Fields of the event `log_security_event` emits, in macro order (the
format-string message first, then the listed fields; the tracing `Value`
implementation for `Option` records nothing for `None`).  `detailsDebug`
is the Debug rendering of the `details` map. -/
def securityEventFields (et : SecurityEventType) (userId : Option String)
    (detailsDebug : String) : List (String × FieldValue) :=
  ("message", .fdebug "Security event occurred") ::
    ("event_type", .fdebug et.debugRender) ::
      ((match userId with
        | some u => [("user_id", FieldValue.fstr u)]
        | none => []) ++
        [("details", .fdebug detailsDebug), ("security_event", .fbool true)])

/-- Model of `PerformanceMetric`.  `duration_ms` is the `f64` payload
(carried as `ℚ`; the module never computes with it) and `detailsDebug` the
Debug rendering of the `details` map. -/
structure PerformanceMetric where
  operation : String
  duration_ms : ℚ
  success : Bool
  detailsDebug : String
deriving DecidableEq, Repr

/-- Level of the event `log_performance_metric` emits (`tracing::info!`). -/
def performanceEventLevel : Level := .info

/-- Target of the event `log_performance_metric` emits
(`target: "performance"`). -/
def performanceEventTarget : String := "performance"

/-- Fields of the event `log_performance_metric` emits, in macro order.
`operation = %metric.operation` is a Display capture, received by
`record_debug` whose Debug rendering equals the Display rendering (the
plain string); `duration_ms` and the booleans are recorded by
`record_f64` / `record_bool`. -/
def performanceMetricFields (m : PerformanceMetric) : List (String × FieldValue) :=
  [("message", .fdebug "Performance metric recorded"),
   ("operation", .fdebug m.operation),
   ("duration_ms", .ff64 m.duration_ms),
   ("success", .fbool m.success),
   ("details", .fdebug m.detailsDebug),
   ("performance_metric", .fbool true)]

/-- The span `with_correlation_id` makes current around `f()`: it is
created by `info_span!("request", correlation_id = %correlation_id.0)` and
then `span.record("correlation_id", ...)`.  Both calls only record the id
as a span field (which the fmt layers store in their `FormattedFields`
extension); no code path in the module calls
`extensions_mut().insert::<CorrelationId>(..)`, so the span's extension
map never holds an entry of type `CorrelationId`. -/
def withCorrelationIdSpan (id : String) : SpanData :=
  { name := "request"
    extensions := [.other ("FormattedFields: correlation_id=" ++ id)] }

/-- The span `new_correlation_span(name, f)` makes current around
`f(correlation_id)`: identical to `withCorrelationIdSpan` except for the
caller-chosen span name and the freshly generated id. -/
def newCorrelationSpan (name id : String) : SpanData :=
  { name := name
    extensions := [.other ("FormattedFields: correlation_id=" ++ id)] }

/-- A `std::error::Error` value for the error-logging utilities: its
Display rendering (`to_string`) plus an optional source error. -/
inductive ErrorModel where
  | leaf : String → ErrorModel
  | wrap : String → ErrorModel → ErrorModel
deriving DecidableEq, Repr

/-- Display rendering (`error.to_string()`). -/
def ErrorModel.render : ErrorModel → String
  | .leaf m => m
  | .wrap m _ => m

/-- Model of `error.source()`. -/
def ErrorModel.source : ErrorModel → Option ErrorModel
  | .leaf _ => none
  | .wrap _ s => some s

/-- The `while let Some(err) = source` loop of `error_chain`: starting
from the current error and the chain accumulated so far, push each
successive source's rendering. -/
def errorChainAux : ErrorModel → List String → List String
  | .leaf _, chain => chain
  | .wrap _ src, chain => errorChainAux src (chain ++ [src.render])

/-- Model of `error_chain`: the vector seeded with the error's own
rendering, extended by the loop over its transitive sources. -/
def error_chain (e : ErrorModel) : List String :=
  errorChainAux e [e.render]

/-- The chain as the claim words it: the renderings of the error and of
each transitive source, outermost to innermost, written structurally. -/
def renderChainSpec : ErrorModel → List String
  | .leaf m => [m]
  | .wrap m src => m :: renderChainSpec src

/-- Rust `Debug` escaping of one character inside a quoted string. -/
def rustDebugEscapeCharL (c : Char) : List Char :=
  if c = '"' then ['\\', '"']
  else if c = '\\' then ['\\', '\\']
  else if c = '\n' then ['\\', 'n']
  else if c = '\r' then ['\\', 'r']
  else if c = '\t' then ['\\', 't']
  else [c]

/-- Rust `Debug` rendering of a `String` (quoted, escaped). -/
def rustStrDebug (s : String) : String :=
  "\"" ++ (String.mk (s.data.flatMap rustDebugEscapeCharL) ++ "\"")

/-- Rust `Debug` rendering of a `Vec<String>`. -/
def rustVecDebug (xs : List String) : String :=
  "[" ++ (String.intercalate ", " (xs.map rustStrDebug) ++ "]")

/-- Fields of the event `log_error_with_context` emits, in macro order:
the format-string message, the `%`-captured Display rendering of the
error, the `&str` context, the Debug renderings of the details map and of
the `error_chain` vector. -/
def logErrorWithContextFields (e : ErrorModel) (context : String)
    (detailsDebug : String) : List (String × FieldValue) :=
  [("message", .fdebug "Error occurred with context"),
   ("error", .fdebug e.render),
   ("context", .fstr context),
   ("details", .fdebug detailsDebug),
   ("error_chain", .fdebug (rustVecDebug (error_chain e)))]

/-- Fields of the event `log_critical_error` emits, in macro order (the
same shape plus `critical = true` and its own message). -/
def logCriticalErrorFields (e : ErrorModel) (context : String)
    (detailsDebug : String) : List (String × FieldValue) :=
  [("message", .fdebug "Critical error occurred"),
   ("error", .fdebug e.render),
   ("context", .fstr context),
   ("details", .fdebug detailsDebug),
   ("error_chain", .fdebug (rustVecDebug (error_chain e))),
   ("critical", .fbool true)]

/-! Association-list record lemmas. -/

@[simp]
theorem hasKey_nil (k : String) : hasKey [] k = false := rfl

theorem hasKey_cons (k k' : String) (v' : JsonValue) (rest : JsonRecord) :
    hasKey ((k', v') :: rest) k = (k' = k || hasKey rest k) := by
  by_cases h : k' = k <;> simp [hasKey, h]

theorem hasKey_of_lookupKV {r : JsonRecord} {k : String} {v : JsonValue}
    (h : lookupKV r k = some v) : hasKey r k = true := by
  simp [hasKey, h]

theorem lookupKV_insertKV_comm (r : JsonRecord) {k₁ k₂ : String}
    (v₁ v₂ : JsonValue) (hne : k₁ ≠ k₂) (k : String) :
    lookupKV (insertKV (insertKV r k₂ v₂) k₁ v₁) k =
      lookupKV (insertKV (insertKV r k₁ v₁) k₂ v₂) k := by
  by_cases h₁ : k₁ = k
  · subst h₁
    rw [lookupKV_insertKV_self, lookupKV_insertKV_ne _ _ (fun h => hne h.symm),
      lookupKV_insertKV_self]
  · by_cases h₂ : k₂ = k
    · subst h₂
      rw [lookupKV_insertKV_ne _ _ h₁, lookupKV_insertKV_self,
        lookupKV_insertKV_self]
    · rw [lookupKV_insertKV_ne _ _ h₁, lookupKV_insertKV_ne _ _ h₂,
        lookupKV_insertKV_ne _ _ h₂, lookupKV_insertKV_ne _ _ h₁]

/-! Stage lemmas for `addFields`. -/

@[simp]
theorem addFields_nil (r : JsonRecord) : addFields [] r = r := rfl

@[simp]
theorem addFields_cons (kv : String × JsonValue) (fs : JsonRecord) (r : JsonRecord) :
    addFields (kv :: fs) r = addFields fs (insertKV r kv.1 kv.2) := rfl

theorem lookupKV_addFields_not_key (fs : JsonRecord) (r : JsonRecord) (k : String)
    (h : hasKey fs k = false) :
    lookupKV (addFields fs r) k = lookupKV r k := by
  induction fs generalizing r with
  | nil => rfl
  | cons hd tl ih =>
    obtain ⟨k₁, v₁⟩ := hd
    rw [hasKey_cons] at h
    simp only [Bool.or_eq_false_iff, decide_eq_false_iff_not] at h
    rw [addFields_cons, ih _ h.2, lookupKV_insertKV_ne _ _ h.1]

theorem hasKey_addFields (fs : JsonRecord) (r : JsonRecord) (k : String) :
    hasKey (addFields fs r) k = true ↔ hasKey fs k = true ∨ hasKey r k = true := by
  induction fs generalizing r with
  | nil => simp
  | cons hd tl ih =>
    obtain ⟨k₁, v₁⟩ := hd
    rw [addFields_cons, ih, hasKey_cons, hasKey_insertKV]
    by_cases h : k₁ = k <;> simp [h]

theorem mem_keys_of_hasKey {r : JsonRecord} {k : String} (h : hasKey r k = true) :
    k ∈ r.map Prod.fst := by
  induction r with
  | nil => simp [hasKey] at h
  | cons hd tl ih =>
    obtain ⟨k', v'⟩ := hd
    rw [hasKey_cons] at h
    simp only [Bool.or_eq_true, decide_eq_true_eq] at h
    rcases h with h | h
    · subst h; exact List.mem_cons_self _ _
    · exact List.mem_cons_of_mem _ (ih h)

theorem lookupKV_addFields_of_nodup (fs : JsonRecord) (r : JsonRecord)
    {k : String} {v : JsonValue} (hnd : (fs.map Prod.fst).Nodup)
    (h : lookupKV fs k = some v) :
    lookupKV (addFields fs r) k = some v := by
  induction fs generalizing r with
  | nil => simp at h
  | cons hd tl ih =>
    obtain ⟨k₁, v₁⟩ := hd
    simp only [List.map_cons, List.nodup_cons] at hnd
    rw [lookupKV_cons] at h
    by_cases hk : k₁ = k
    · subst hk
      rw [if_pos rfl] at h
      injection h with h
      subst h
      rw [addFields_cons]
      have hno : hasKey tl k₁ = false := by
        by_contra hcon
        rw [Bool.not_eq_false] at hcon
        exact hnd.1 (mem_keys_of_hasKey hcon)
      rw [lookupKV_addFields_not_key _ _ _ hno, lookupKV_insertKV_self]
    · rw [if_neg hk] at h
      rw [addFields_cons]
      exact ih _ hnd.2 h

/-! Stage lemmas for `addContext`, `addMessage`, `addLoc`. -/

theorem lookupKV_addContext_ne (ctx : Option SpanData) (r : JsonRecord) {k : String}
    (h₁ : k ≠ "correlation_id") (h₂ : k ≠ "span") :
    lookupKV (addContext ctx r) k = lookupKV r k := by
  cases ctx with
  | none => rfl
  | some span =>
    unfold addContext
    cases hc : getCorrelationIdExt span.extensions with
    | none =>
      simp only [hc]
      rw [lookupKV_insertKV_ne _ _ (fun h => h₂ h.symm)]
    | some id =>
      simp only [hc]
      rw [lookupKV_insertKV_ne _ _ (fun h => h₂ h.symm),
        lookupKV_insertKV_ne _ _ (fun h => h₁ h.symm)]

theorem lookupKV_addContext_span (sp : SpanData) (r : JsonRecord) :
    lookupKV (addContext (some sp) r) "span" = some (.jstr sp.name) := by
  unfold addContext
  cases hc : getCorrelationIdExt sp.extensions <;> simp [hc]

theorem lookupKV_addContext_correlation (sp : SpanData) (r : JsonRecord) :
    lookupKV (addContext (some sp) r) "correlation_id" =
      match getCorrelationIdExt sp.extensions with
      | some id => some (.jstr id)
      | none => lookupKV r "correlation_id" := by
  unfold addContext
  cases hc : getCorrelationIdExt sp.extensions with
  | none =>
    simp only [hc]
    rw [lookupKV_insertKV_ne _ _ (by decide)]
  | some id =>
    simp only [hc]
    rw [lookupKV_insertKV_ne _ _ (by decide), lookupKV_insertKV_self]

theorem lookupKV_addMessage_ne (msg : Option String) (r : JsonRecord) {k : String}
    (h : k ≠ "message") :
    lookupKV (addMessage msg r) k = lookupKV r k := by
  cases msg with
  | none => rfl
  | some m => exact lookupKV_insertKV_ne _ _ (fun hh => h hh.symm)

theorem lookupKV_addMessage_message (msg : Option String) (r : JsonRecord) :
    lookupKV (addMessage msg r) "message" =
      match msg with
      | some m => some (.jstr m)
      | none => lookupKV r "message" := by
  cases msg with
  | none => rfl
  | some m => exact lookupKV_insertKV_self _ _ _

theorem lookupKV_addLoc_ne (md : Metadata) (r : JsonRecord) {k : String}
    (h₁ : k ≠ "file") (h₂ : k ≠ "line") :
    lookupKV (addLoc md r) k = lookupKV r k := by
  unfold addLoc
  cases md.file with
  | none =>
    cases md.line with
    | none => rfl
    | some n => exact lookupKV_insertKV_ne _ _ (fun hh => h₂ hh.symm)
  | some f =>
    cases md.line with
    | none => exact lookupKV_insertKV_ne _ _ (fun hh => h₁ hh.symm)
    | some n =>
      rw [lookupKV_insertKV_ne _ _ (fun hh => h₂ hh.symm),
        lookupKV_insertKV_ne _ _ (fun hh => h₁ hh.symm)]

theorem lookupKV_addLoc_file (md : Metadata) (r : JsonRecord) :
    lookupKV (addLoc md r) "file" =
      match md.file with
      | some f => some (.jstr f)
      | none => lookupKV r "file" := by
  unfold addLoc
  cases md.file with
  | none =>
    cases md.line with
    | none => rfl
    | some n => exact lookupKV_insertKV_ne _ _ (by decide)
  | some f =>
    cases md.line with
    | none => simp
    | some n =>
      rw [lookupKV_insertKV_ne _ _ (by decide)]
      simp

theorem lookupKV_addLoc_line (md : Metadata) (r : JsonRecord) :
    lookupKV (addLoc md r) "line" =
      match md.line with
      | some n => some (.jnum n)
      | none => lookupKV r "line" := by
  unfold addLoc
  cases md.file with
  | none => cases md.line <;> simp
  | some f =>
    cases md.line with
    | none => exact lookupKV_insertKV_ne _ _ (by decide)
    | some n => simp

/-! Visitor lemmas. -/

@[simp]
theorem runVisitorFrom_nil (v : JsonVisitor) : runVisitorFrom v [] = v := rfl

@[simp]
theorem runVisitorFrom_cons (v : JsonVisitor) (n : String) (val : FieldValue)
    (rest : List (String × FieldValue)) :
    runVisitorFrom v ((n, val) :: rest) = runVisitorFrom (visitStep v n val) rest := rfl

theorem visitStep_message (v : JsonVisitor) (n : String) (val : FieldValue) :
    (visitStep v n val).message =
      match val with
      | .fstr s => if n = "message" then some s else v.message
      | .fdebug s => if n = "message" then some s else v.message
      | _ => v.message := by
  cases val <;> first
    | rfl
    | (by_cases h : n = "message" <;> simp [visitStep, h])

theorem visitStep_fields (v : JsonVisitor) (n : String) (val : FieldValue) :
    (visitStep v n val).fields =
      match val with
      | .fstr s => if n = "message" then v.fields else insertKV v.fields n (.jstr s)
      | .fdebug s => if n = "message" then v.fields else insertKV v.fields n (.jstr s)
      | .fi64 i => insertKV v.fields n (.jnum i)
      | .fu64 u => insertKV v.fields n (.jnum u)
      | .ff64 q => insertKV v.fields n (.jnum q)
      | .fbool b => insertKV v.fields n (.jbool b) := by
  cases val <;> first
    | rfl
    | (by_cases h : n = "message" <;> simp [visitStep, h])

theorem visitStep_fields_hasKey_mono (v : JsonVisitor) (n : String)
    (val : FieldValue) {k : String} (h : hasKey v.fields k = true) :
    hasKey (visitStep v n val).fields k = true := by
  rw [visitStep_fields]
  cases val <;> simp only []
  case fstr s =>
    by_cases hn : n = "message" <;> simp [hn, hasKey_insertKV, h]
  case fdebug s =>
    by_cases hn : n = "message" <;> simp [hn, hasKey_insertKV, h]
  all_goals simp [hasKey_insertKV, h]

theorem visitStep_message_isSome_mono (v : JsonVisitor) (n : String)
    (val : FieldValue) (h : v.message.isSome = true) :
    (visitStep v n val).message.isSome = true := by
  rw [visitStep_message]
  cases val <;> simp only []
  case fstr s => by_cases hn : n = "message" <;> simp [hn, h]
  case fdebug s => by_cases hn : n = "message" <;> simp [hn, h]
  all_goals exact h

theorem runVisitorFrom_fields_hasKey_mono (v : JsonVisitor)
    (ev : List (String × FieldValue)) {k : String}
    (h : hasKey v.fields k = true) :
    hasKey (runVisitorFrom v ev).fields k = true := by
  induction ev generalizing v with
  | nil => exact h
  | cons hd tl ih =>
    obtain ⟨n, val⟩ := hd
    exact ih _ (visitStep_fields_hasKey_mono v n val h)

theorem runVisitorFrom_message_isSome_mono (v : JsonVisitor)
    (ev : List (String × FieldValue)) (h : v.message.isSome = true) :
    (runVisitorFrom v ev).message.isSome = true := by
  induction ev generalizing v with
  | nil => exact h
  | cons hd tl ih =>
    obtain ⟨n, val⟩ := hd
    exact ih _ (visitStep_message_isSome_mono v n val h)

theorem runVisitorFrom_hasKey_fields_sub (v : JsonVisitor)
    (ev : List (String × FieldValue)) {k : String}
    (h : hasKey (runVisitorFrom v ev).fields k = true) :
    hasKey v.fields k = true ∨ k ∈ ev.map fieldName := by
  induction ev generalizing v with
  | nil => exact Or.inl h
  | cons hd tl ih =>
    obtain ⟨n, val⟩ := hd
    rw [runVisitorFrom_cons] at h
    rcases ih _ h with h' | h'
    · rw [visitStep_fields] at h'
      have hins : ∀ v₀ : JsonValue, hasKey (insertKV v.fields n v₀) k = true →
          hasKey v.fields k = true ∨ k ∈ ((n, val) :: tl).map fieldName := by
        intro v₀ hh
        rw [hasKey_insertKV] at hh
        simp only [Bool.or_eq_true, decide_eq_true_eq] at hh
        rcases hh with hh | hh
        · subst hh; right; exact List.mem_cons_self _ _
        · exact Or.inl hh
      cases val <;> simp only [] at h'
      case fstr s =>
        by_cases hn : n = "message"
        · rw [if_pos hn] at h'; exact Or.inl h'
        · rw [if_neg hn] at h'; exact hins _ h'
      case fdebug s =>
        by_cases hn : n = "message"
        · rw [if_pos hn] at h'; exact Or.inl h'
        · rw [if_neg hn] at h'; exact hins _ h'
      all_goals exact hins _ h'
    · right; exact List.mem_cons_of_mem _ h'

theorem runVisitorFrom_message_origin (v : JsonVisitor)
    (ev : List (String × FieldValue)) {s : String}
    (h : (runVisitorFrom v ev).message = some s) :
    v.message = some s ∨ ("message", FieldValue.fstr s) ∈ ev ∨
      ("message", FieldValue.fdebug s) ∈ ev := by
  induction ev generalizing v with
  | nil => exact Or.inl h
  | cons hd tl ih =>
    obtain ⟨n, val⟩ := hd
    rw [runVisitorFrom_cons] at h
    rcases ih _ h with h' | h' | h'
    · rw [visitStep_message] at h'
      cases val <;> simp only [] at h'
      case fstr str =>
        by_cases hn : n = "message"
        · rw [if_pos hn] at h'
          injection h' with h'
          subst h'; subst hn
          exact Or.inr (Or.inl (List.mem_cons_self _ _))
        · rw [if_neg hn] at h'; exact Or.inl h'
      case fdebug str =>
        by_cases hn : n = "message"
        · rw [if_pos hn] at h'
          injection h' with h'
          subst h'; subst hn
          exact Or.inr (Or.inr (List.mem_cons_self _ _))
        · rw [if_neg hn] at h'; exact Or.inl h'
      all_goals exact Or.inl h'
    · exact Or.inr (Or.inl (List.mem_cons_of_mem _ h'))
    · exact Or.inr (Or.inr (List.mem_cons_of_mem _ h'))

theorem runVisitorFrom_message_present (v : JsonVisitor)
    (ev : List (String × FieldValue))
    (h : "message" ∈ ev.map fieldName) :
    (runVisitorFrom v ev).message.isSome = true ∨
      hasKey (runVisitorFrom v ev).fields "message" = true := by
  induction ev generalizing v with
  | nil => simp at h
  | cons hd tl ih =>
    obtain ⟨n, val⟩ := hd
    rw [List.map_cons, List.mem_cons] at h
    rcases h with h | h
    · rw [runVisitorFrom_cons]
      have h' : n = "message" := h.symm
      subst h'
      cases val
      case fstr s =>
        left
        exact runVisitorFrom_message_isSome_mono _ _ (by simp [visitStep])
      case fdebug s =>
        left
        exact runVisitorFrom_message_isSome_mono _ _ (by simp [visitStep])
      all_goals
        right
        refine runVisitorFrom_fields_hasKey_mono _ _ ?_
        rw [visitStep_fields]
        simp [hasKey_insertKV]
    · rw [runVisitorFrom_cons]
      exact ih _ h

theorem hasKey_of_mem_keys {r : JsonRecord} {k : String}
    (h : k ∈ r.map Prod.fst) : hasKey r k = true := by
  induction r with
  | nil => simp at h
  | cons hd tl ih =>
    obtain ⟨k', v'⟩ := hd
    rw [hasKey_cons]
    simp only [List.map_cons, List.mem_cons] at h
    rcases h with h | h
    · simp [h.symm]
    · simp [ih h]

theorem keys_insertKV (r : JsonRecord) (k : String) (v : JsonValue) :
    (insertKV r k v).map Prod.fst =
      if hasKey r k = true then r.map Prod.fst else r.map Prod.fst ++ [k] := by
  induction r with
  | nil => simp [insertKV, hasKey]
  | cons hd tl ih =>
    obtain ⟨k', v'⟩ := hd
    rw [hasKey_cons]
    by_cases h : k' = k
    · subst h
      simp [insertKV]
    · rw [insertKV]
      simp only [if_neg h, List.map_cons, ih]
      by_cases h₂ : hasKey tl k = true <;> simp [h₂, h]

theorem keys_nodup_insertKV (r : JsonRecord) (k : String) (v : JsonValue)
    (h : (r.map Prod.fst).Nodup) : ((insertKV r k v).map Prod.fst).Nodup := by
  rw [keys_insertKV]
  by_cases hk : hasKey r k = true
  · simp [hk, h]
  · rw [if_neg hk]
    rw [List.nodup_append]
    refine ⟨h, List.nodup_singleton k, ?_⟩
    intro a ha hb
    rw [List.mem_singleton] at hb
    subst hb
    exact hk (hasKey_of_mem_keys ha)

theorem visitStep_keys_nodup (v : JsonVisitor) (n : String) (val : FieldValue)
    (h : (v.fields.map Prod.fst).Nodup) :
    ((visitStep v n val).fields.map Prod.fst).Nodup := by
  rw [visitStep_fields]
  cases val <;> simp only []
  case fstr s =>
    by_cases hn : n = "message"
    · simpa [hn] using h
    · simpa [hn] using keys_nodup_insertKV _ _ _ h
  case fdebug s =>
    by_cases hn : n = "message"
    · simpa [hn] using h
    · simpa [hn] using keys_nodup_insertKV _ _ _ h
  all_goals exact keys_nodup_insertKV _ _ _ h

theorem runVisitorFrom_keys_nodup (v : JsonVisitor)
    (ev : List (String × FieldValue)) (h : (v.fields.map Prod.fst).Nodup) :
    ((runVisitorFrom v ev).fields.map Prod.fst).Nodup := by
  induction ev generalizing v with
  | nil => exact h
  | cons hd tl ih =>
    obtain ⟨n, val⟩ := hd
    exact ih _ (visitStep_keys_nodup v n val h)

theorem runVisitor_keys_nodup (ev : List (String × FieldValue)) :
    ((runVisitor ev).fields.map Prod.fst).Nodup :=
  runVisitorFrom_keys_nodup _ _ (by simp [JsonVisitor.new])

theorem runVisitorFrom_message_stays (v : JsonVisitor)
    (ev : List (String × FieldValue)) (s : String)
    (hall : ∀ p ∈ ev, fieldName p = "message" → p.2 = FieldValue.fstr s)
    (hv : v.message = some s) : (runVisitorFrom v ev).message = some s := by
  induction ev generalizing v with
  | nil => exact hv
  | cons hd tl ih =>
    obtain ⟨n, val⟩ := hd
    rw [runVisitorFrom_cons]
    refine ih _ (fun p hp hm => hall p (List.mem_cons_of_mem _ hp) hm) ?_
    rw [visitStep_message]
    by_cases hn : n = "message"
    · have hval : val = FieldValue.fstr s := hall (n, val) (List.mem_cons_self _ _) hn
      rw [hval]
      simp [hn]
    · cases val <;> simp [hn, hv]

theorem runVisitorFrom_message_sets (v : JsonVisitor)
    (ev : List (String × FieldValue)) (s : String)
    (hmem : ("message", FieldValue.fstr s) ∈ ev)
    (hall : ∀ p ∈ ev, fieldName p = "message" → p.2 = FieldValue.fstr s) :
    (runVisitorFrom v ev).message = some s := by
  induction ev generalizing v with
  | nil => simp at hmem
  | cons hd tl ih =>
    obtain ⟨n, val⟩ := hd
    rw [runVisitorFrom_cons]
    rcases List.mem_cons.mp hmem with h | h
    · injection h.symm with hn hval
      refine runVisitorFrom_message_stays _ _ _
        (fun p hp hm => hall p (List.mem_cons_of_mem _ hp) hm) ?_
      rw [visitStep_message, hval, hn]
      simp
    · exact ih _ h (fun p hp hm => hall p (List.mem_cons_of_mem _ hp) hm)

theorem runVisitorFrom_no_message_key (v : JsonVisitor)
    (ev : List (String × FieldValue))
    (hall : ∀ p ∈ ev, fieldName p = "message" →
      ∃ s, p.2 = FieldValue.fstr s ∨ p.2 = FieldValue.fdebug s)
    (hv : hasKey v.fields "message" = false) :
    hasKey (runVisitorFrom v ev).fields "message" = false := by
  induction ev generalizing v with
  | nil => exact hv
  | cons hd tl ih =>
    obtain ⟨n, val⟩ := hd
    rw [runVisitorFrom_cons]
    refine ih _ (fun p hp hm => hall p (List.mem_cons_of_mem _ hp) hm) ?_
    rw [visitStep_fields]
    by_cases hn : n = "message"
    · rcases hall (n, val) (List.mem_cons_self _ _) hn with ⟨s, hs | hs⟩
      · have hs₂ : val = FieldValue.fstr s := hs
        rw [hs₂]
        simp [hn, hv]
      · have hs₂ : val = FieldValue.fdebug s := hs
        rw [hs₂]
        simp [hn, hv]
    · cases val <;> simp [hn, hasKey_insertKV, hv]

/-! Serialized records occupy a single line: no character of the compact
serialization is a newline. -/

/-- No character of the list is a newline. -/
def noNL (cs : List Char) : Prop := ∀ c ∈ cs, c ≠ '\n'

theorem noNL_append {cs₁ cs₂ : List Char} (h₁ : noNL cs₁) (h₂ : noNL cs₂) :
    noNL (cs₁ ++ cs₂) := by
  intro c hc
  rcases List.mem_append.mp hc with h | h
  · exact h₁ c h
  · exact h₂ c h

theorem noNL_cons {c₀ : Char} {cs : List Char} (h₀ : c₀ ≠ '\n') (h : noNL cs) :
    noNL (c₀ :: cs) := by
  intro c hc
  rcases List.mem_cons.mp hc with h' | h'
  · subst h'; exact h₀
  · exact h c h'

theorem getD_mem_or_default (l : List Char) (n : Nat) (d : Char) :
    l.getD n d ∈ l ∨ l.getD n d = d := by
  induction l generalizing n with
  | nil => right; cases n <;> rfl
  | cons hd tl ih =>
    cases n with
    | zero => left; simp
    | succ m =>
      rcases ih m with h | h
      · left
        rw [List.getD_cons_succ]
        exact List.mem_cons_of_mem hd h
      · right
        rw [List.getD_cons_succ]
        exact h

theorem hexDigitChar_ne_nl (d : Nat) : hexDigitChar d ≠ '\n' := by
  unfold hexDigitChar
  rcases getD_mem_or_default "0123456789abcdef".data (d % 16) '0' with h | h
  · intro hc
    rw [hc] at h
    revert h
    decide
  · rw [h]
    decide

theorem digitChar_ne_nl (d : Nat) : digitChar d ≠ '\n' := by
  unfold digitChar
  rcases getD_mem_or_default "0123456789".data (d % 10) '0' with h | h
  · intro hc
    rw [hc] at h
    revert h
    decide
  · rw [h]
    decide

theorem hex4_noNL (n : Nat) : noNL (hex4 n) := by
  intro c hc
  unfold hex4 at hc
  simp only [List.mem_cons, List.mem_singleton, List.not_mem_nil, or_false] at hc
  rcases hc with h | h | h | h <;> (subst h; exact hexDigitChar_ne_nl _)

theorem natDigitsAux_noNL (fuel n : Nat) : noNL (natDigitsAux fuel n) := by
  induction fuel generalizing n with
  | zero => intro c hc; simp [natDigitsAux] at hc
  | succ f ih =>
    intro c hc
    rw [natDigitsAux] at hc
    by_cases h : n = 0
    · simp [h] at hc
    · rw [if_neg h] at hc
      rcases List.mem_append.mp hc with h₂ | h₂
      · exact ih (n / 10) c h₂
      · rw [List.mem_singleton] at h₂
        subst h₂
        exact digitChar_ne_nl _

theorem natChars_noNL (n : Nat) : noNL (natChars n) := by
  unfold natChars
  by_cases h : n = 0
  · simp only [if_pos h]
    intro c hc
    rw [List.mem_singleton] at hc
    subst hc
    decide
  · simp only [if_neg h]
    exact natDigitsAux_noNL _ _

theorem fracDigitsAux_noNL (fuel : Nat) (q : ℚ) :
    noNL (ratCharsNN.fracDigitsAux fuel q) := by
  induction fuel generalizing q with
  | zero => intro c hc; simp [ratCharsNN.fracDigitsAux] at hc
  | succ f ih =>
    intro c hc
    rw [ratCharsNN.fracDigitsAux] at hc
    by_cases h : q = 0
    · simp [h] at hc
    · rw [if_neg h] at hc
      rcases List.mem_cons.mp hc with h₂ | h₂
      · subst h₂; exact digitChar_ne_nl _
      · exact ih _ c h₂

theorem ratCharsNN_noNL (q : ℚ) : noNL (ratCharsNN q) := by
  unfold ratCharsNN
  by_cases h : q - ⌊q⌋ = 0
  · simp only [if_pos h]
    exact natChars_noNL _
  · simp only [if_neg h]
    exact noNL_append (natChars_noNL _)
      (noNL_cons (by decide) (fracDigitsAux_noNL _ _))

theorem ratChars_noNL (q : ℚ) : noNL (ratChars q) := by
  unfold ratChars
  by_cases h : q < 0
  · simp only [if_pos h]
    exact noNL_cons (by decide) (ratCharsNN_noNL _)
  · simp only [if_neg h]
    exact ratCharsNN_noNL _

theorem escapeCharL_noNL (c : Char) : noNL (escapeCharL c) := by
  intro c' hc'
  unfold escapeCharL at hc'
  split_ifs at hc' with h₁ h₂ h₃ h₄ h₅ h₆ h₇ h₈
  · fin_cases hc' <;> decide
  · fin_cases hc' <;> decide
  · fin_cases hc' <;> decide
  · fin_cases hc' <;> decide
  · fin_cases hc' <;> decide
  · fin_cases hc' <;> decide
  · fin_cases hc' <;> decide
  · rcases List.mem_cons.mp hc' with h | h
    · subst h; decide
    · rcases List.mem_cons.mp h with h' | h'
      · subst h'; decide
      · exact hex4_noNL _ c' h'
  · rw [List.mem_singleton] at hc'
    subst hc'
    exact h₃

theorem escapeStringL_noNL (cs : List Char) : noNL (escapeStringL cs) := by
  intro c hc
  unfold escapeStringL at hc
  rcases List.mem_flatMap.mp hc with ⟨c₀, _, hc₀⟩
  exact escapeCharL_noNL c₀ c hc₀

theorem serializeValueL_noNL (v : JsonValue) : noNL (serializeValueL v) := by
  cases v with
  | jnull =>
    unfold serializeValueL noNL
    decide
  | jbool b =>
    cases b <;> (unfold serializeValueL noNL; decide)
  | jnum q => exact ratChars_noNL q
  | jstr s =>
    exact noNL_cons (by decide)
      (noNL_append (escapeStringL_noNL _) (by intro c hc; rw [List.mem_singleton] at hc; subst hc; decide))

theorem serializeEntryL_noNL (k : String) (v : JsonValue) :
    noNL (serializeEntryL k v) := by
  unfold serializeEntryL
  refine noNL_append (noNL_cons (by decide) (noNL_append (escapeStringL_noNL _) ?_))
    (serializeValueL_noNL v)
  intro c hc
  fin_cases hc <;> decide

theorem serializeEntriesL_noNL (r : List (String × JsonValue)) :
    noNL (serializeEntriesL r) := by
  induction r with
  | nil => intro c hc; simp [serializeEntriesL] at hc
  | cons hd tl ih =>
    obtain ⟨k, v⟩ := hd
    cases tl with
    | nil => exact serializeEntryL_noNL k v
    | cons hd₂ tl₂ =>
      exact noNL_append (serializeEntryL_noNL k v) (noNL_cons (by decide) ih)

theorem serializeRecordL_noNL (r : JsonRecord) : noNL (serializeRecordL r) := by
  unfold serializeRecordL
  refine noNL_cons (by decide) (noNL_append (serializeEntriesL_noNL r) ?_)
  intro c hc
  rw [List.mem_singleton] at hc
  subst hc
  decide

theorem formatEventLine_single_line (now : String) (envVar : Option String)
    (md : Metadata) (ctx : Option SpanData) (ev : List (String × FieldValue)) :
    (formatEventLine now envVar md ctx ev).count '\n' = 1 ∧
      (formatEventLine now envVar md ctx ev).getLast? = some '\n' := by
  unfold formatEventLine
  constructor
  · rw [List.count_append]
    have h₀ : (serializeRecordL (format_event now envVar md ctx ev)).count '\n' = 0 :=
      List.count_eq_zero.mpr (fun hmem => serializeRecordL_noNL _ '\n' hmem rfl)
    rw [h₀]
    rfl
  · rw [List.getLast?_concat]

/-! Extensional equality of records (the key → value mapping; the real
serde_json object is a key-ordered map, so this is exactly object
equality), and the commuting lemmas behind claim C3. -/

/-- Two records represent the same JSON object. -/
def recordEquiv (r₁ r₂ : JsonRecord) : Prop :=
  ∀ k, lookupKV r₁ k = lookupKV r₂ k

theorem recordEquiv_insertKV {r₁ r₂ : JsonRecord} (h : recordEquiv r₁ r₂)
    (k : String) (v : JsonValue) :
    recordEquiv (insertKV r₁ k v) (insertKV r₂ k v) := by
  intro k'
  by_cases hk : k = k'
  · subst hk; simp
  · rw [lookupKV_insertKV_ne _ _ hk, lookupKV_insertKV_ne _ _ hk]
    exact h k'

theorem recordEquiv_addFields (fs : JsonRecord) {r₁ r₂ : JsonRecord}
    (h : recordEquiv r₁ r₂) :
    recordEquiv (addFields fs r₁) (addFields fs r₂) := by
  induction fs generalizing r₁ r₂ with
  | nil => exact h
  | cons hd tl ih =>
    rw [addFields_cons, addFields_cons]
    exact ih (recordEquiv_insertKV h hd.1 hd.2)

theorem recordEquiv_addMessage (msg : Option String) {r₁ r₂ : JsonRecord}
    (h : recordEquiv r₁ r₂) :
    recordEquiv (addMessage msg r₁) (addMessage msg r₂) := by
  cases msg with
  | none => exact h
  | some m => exact recordEquiv_insertKV h _ _

theorem recordEquiv_addLoc (md : Metadata) {r₁ r₂ : JsonRecord}
    (h : recordEquiv r₁ r₂) :
    recordEquiv (addLoc md r₁) (addLoc md r₂) := by
  unfold addLoc
  cases md.file with
  | none => cases md.line with
    | none => exact h
    | some n => exact recordEquiv_insertKV h _ _
  | some f => cases md.line with
    | none => exact recordEquiv_insertKV h _ _
    | some n => exact recordEquiv_insertKV (recordEquiv_insertKV h _ _) _ _

theorem addFields_insertKV_comm (fs : JsonRecord) (r : JsonRecord)
    (k : String) (v : JsonValue) (hk : hasKey fs k = false) :
    recordEquiv (addFields fs (insertKV r k v)) (insertKV (addFields fs r) k v) := by
  induction fs generalizing r with
  | nil => intro k'; rfl
  | cons hd tl ih =>
    obtain ⟨k₁, v₁⟩ := hd
    rw [hasKey_cons] at hk
    simp only [Bool.or_eq_false_iff, decide_eq_false_iff_not] at hk
    intro k'
    rw [addFields_cons, addFields_cons]
    calc lookupKV (addFields tl (insertKV (insertKV r k v) k₁ v₁)) k'
        = lookupKV (addFields tl (insertKV (insertKV r k₁ v₁) k v)) k' :=
          recordEquiv_addFields tl (fun k'' => lookupKV_insertKV_comm r v₁ v hk.1 k'') k'
      _ = lookupKV (insertKV (addFields tl (insertKV r k₁ v₁)) k v) k' :=
          ih _ hk.2 k'

theorem addFields_addMessage_swap (fs : JsonRecord) (r : JsonRecord)
    (msg : Option String)
    (hdisj : msg.isSome = true → hasKey fs "message" = false) :
    recordEquiv (addFields fs (addMessage msg r))
      (addMessage msg (addFields fs r)) := by
  cases msg with
  | none => intro k; rfl
  | some m => exact addFields_insertKV_comm fs r "message" (.jstr m) (hdisj (by simp))

/-- Which `Visit` callback family receives a value: `record_str` /
`record_debug` (the two that special-case "message") versus the rest. -/
def isStringlike : FieldValue → Prop
  | .fstr _ => True
  | .fdebug _ => True
  | _ => False

theorem runVisitorFrom_message_key_numeric (v : JsonVisitor)
    (ev : List (String × FieldValue))
    (h : hasKey (runVisitorFrom v ev).fields "message" = true) :
    hasKey v.fields "message" = true ∨
      ∃ val, ("message", val) ∈ ev ∧ ¬ isStringlike val := by
  induction ev generalizing v with
  | nil => exact Or.inl h
  | cons hd tl ih =>
    obtain ⟨n, val⟩ := hd
    rw [runVisitorFrom_cons] at h
    rcases ih _ h with h' | ⟨val₂, hmem, hns⟩
    · rw [visitStep_fields] at h'
      have hins : (∀ v₀ : JsonValue, hasKey (insertKV v.fields n v₀) "message" = true →
          ¬ isStringlike val →
          hasKey v.fields "message" = true ∨
            ∃ w, ("message", w) ∈ (n, val) :: tl ∧ ¬ isStringlike w) := by
        intro v₀ hh hnsl
        rw [hasKey_insertKV] at hh
        simp only [Bool.or_eq_true, decide_eq_true_eq] at hh
        rcases hh with hh | hh
        · subst hh
          exact Or.inr ⟨val, List.mem_cons_self _ _, hnsl⟩
        · exact Or.inl hh
      cases val <;> simp only [] at h' hins ⊢
      case fstr s =>
        by_cases hn : n = "message"
        · rw [if_pos hn] at h'; exact Or.inl h'
        · rw [if_neg hn] at h'
          rw [hasKey_insertKV] at h'
          simp only [Bool.or_eq_true, decide_eq_true_eq] at h'
          rcases h' with h' | h'
          · exact absurd h' hn
          · exact Or.inl h'
      case fdebug s =>
        by_cases hn : n = "message"
        · rw [if_pos hn] at h'; exact Or.inl h'
        · rw [if_neg hn] at h'
          rw [hasKey_insertKV] at h'
          simp only [Bool.or_eq_true, decide_eq_true_eq] at h'
          rcases h' with h' | h'
          · exact absurd h' hn
          · exact Or.inl h'
      case fi64 i => exact hins _ h' (by simp [isStringlike])
      case fu64 u => exact hins _ h' (by simp [isStringlike])
      case ff64 q => exact hins _ h' (by simp [isStringlike])
      case fbool b => exact hins _ h' (by simp [isStringlike])
    · exact Or.inr ⟨val₂, List.mem_cons_of_mem _ hmem, hns⟩

theorem runVisitor_slot_fields_disjoint (ev : List (String × FieldValue))
    (hnd : (ev.map fieldName).Nodup)
    (hs : (runVisitor ev).message.isSome = true) :
    hasKey (runVisitor ev).fields "message" = false := by
  by_contra hcon
  rw [Bool.not_eq_false] at hcon
  rcases Option.isSome_iff_exists.mp hs with ⟨s, hslot⟩
  rcases runVisitorFrom_message_key_numeric _ _ hcon with h₂ | ⟨val₂, hmem₂, hns⟩
  · simp [JsonVisitor.new, hasKey] at h₂
  rcases runVisitorFrom_message_origin _ _ hslot with h₀ | h₁ | h₁
  · simp [JsonVisitor.new] at h₀
  · have heq := List.inj_on_of_nodup_map hnd h₁ hmem₂ rfl
    injection heq with _ hval
    exact hns (by rw [← hval]; trivial)
  · have heq := List.inj_on_of_nodup_map hnd h₁ hmem₂ rfl
    injection heq with _ hval
    exact hns (by rw [← hval]; trivial)

/-! Presence (`hasKey`) monotonicity through the formatter stages, and a
few targeted helpers. -/

theorem hasKey_addContext_mono (ctx : Option SpanData) (r : JsonRecord)
    {k : String} (h : hasKey r k = true) : hasKey (addContext ctx r) k = true := by
  cases ctx with
  | none => exact h
  | some sp =>
    unfold addContext
    cases hc : getCorrelationIdExt sp.extensions <;> simp [hc, hasKey_insertKV, h]

theorem hasKey_addMessage_mono (msg : Option String) (r : JsonRecord)
    {k : String} (h : hasKey r k = true) : hasKey (addMessage msg r) k = true := by
  cases msg with
  | none => exact h
  | some m => simp [addMessage, hasKey_insertKV, h]

theorem hasKey_addFields_mono (fs : JsonRecord) (r : JsonRecord)
    {k : String} (h : hasKey r k = true) : hasKey (addFields fs r) k = true :=
  (hasKey_addFields fs r k).mpr (Or.inr h)

theorem hasKey_addLoc_mono (md : Metadata) (r : JsonRecord)
    {k : String} (h : hasKey r k = true) : hasKey (addLoc md r) k = true := by
  unfold addLoc
  cases md.file <;> cases md.line <;> simp [hasKey_insertKV, h]

theorem hasKey_addMessage_message (msg : Option String) (r : JsonRecord) :
    hasKey (addMessage msg r) "message" = (msg.isSome || hasKey r "message") := by
  cases msg with
  | none => rfl
  | some m => simp [addMessage, hasKey_insertKV]

theorem runVisitor_no_key (ev : List (String × FieldValue)) (k : String)
    (hk : ∀ p ∈ ev, fieldName p ≠ k) :
    hasKey (runVisitor ev).fields k = false := by
  by_contra hcon
  rw [Bool.not_eq_false] at hcon
  rcases runVisitorFrom_hasKey_fields_sub _ _ hcon with h | h
  · simp [JsonVisitor.new, hasKey] at h
  · rcases List.mem_map.mp h with ⟨p, hp, hpk⟩
    exact hk p hp hpk

theorem runVisitorFrom_records_field (v : JsonVisitor)
    (ev : List (String × FieldValue)) {p : String × FieldValue}
    (hp : p ∈ ev) (hn : fieldName p ≠ "message") :
    hasKey (runVisitorFrom v ev).fields (fieldName p) = true := by
  induction ev generalizing v with
  | nil => simp at hp
  | cons hd tl ih =>
    obtain ⟨n, val⟩ := hd
    rw [runVisitorFrom_cons]
    rcases List.mem_cons.mp hp with h | h
    · subst h
      refine runVisitorFrom_fields_hasKey_mono _ _ ?_
      rw [visitStep_fields]
      cases val <;> simp only []
      case fstr s =>
        rw [if_neg hn]
        simp [hasKey_insertKV]
      case fdebug s =>
        rw [if_neg hn]
        simp [hasKey_insertKV]
      all_goals simp [hasKey_insertKV]
    · exact ih _ h

/-! The error-chain loop equals its structural description. -/

theorem renderChainSpec_head (e : ErrorModel) :
    renderChainSpec e = e.render :: (renderChainSpec e).tail := by
  cases e <;> rfl

theorem errorChainAux_eq (e : ErrorModel) (acc : List String) :
    errorChainAux e acc = acc ++ (renderChainSpec e).tail := by
  induction e generalizing acc with
  | leaf m => simp [errorChainAux, renderChainSpec]
  | wrap m src ih =>
    rw [errorChainAux, ih, renderChainSpec, List.tail_cons, List.append_assoc]
    congr 1
    conv_rhs => rw [renderChainSpec_head src]
    rfl

theorem error_chain_eq_renderChainSpec (e : ErrorModel) :
    error_chain e = renderChainSpec e := by
  rw [error_chain, errorChainAux_eq]
  conv_rhs => rw [renderChainSpec_head e]
  rfl

/-! Claim theorems. -/

/-- Claim C1 (code evaluated at the failing input): an info event emitted
inside `with_correlation_id(CorrelationId("X"), ..)` is formatted with no
`correlation_id` key at all — `format_event` looks the id up as a
`CorrelationId` span extension, which no code path ever inserts (the id is
only recorded as a span field) — while the `span` key does carry the scope
span's name "request".  The claim says the record carries
`correlation_id = "X"`. -/
theorem c1_correlation_id_missing_inside_scope :
    lookupKV
        (format_event "2026-01-01T00:00:00+00:00" none
          ⟨Level.info, "off_the_grid::cli", some "src/main.rs", some 42⟩
          (some (withCorrelationIdSpan "X"))
          [("message", FieldValue.fdebug "hello")])
        "correlation_id" = none ∧
    lookupKV
        (format_event "2026-01-01T00:00:00+00:00" none
          ⟨Level.info, "off_the_grid::cli", some "src/main.rs", some 42⟩
          (some (withCorrelationIdSpan "X"))
          [("message", FieldValue.fdebug "hello")])
        "span" = some (.jstr "request") := by
  decide

/-- Claim C2 (code evaluated at the failing input): the WARN event with
target "security" that `log_security_event` emits passes the security
sink's filter, but it ALSO passes the performance sink's filter — the
bare `info` directive in `EnvFilter::new("info")` enables every target at
info and above, so the `performance=info` directive never excludes
anything.  The claim says the performance-only sink rejects it. -/
theorem c2_security_event_passes_performance_filter :
    envFilterEnabled securityEnvFilter securityEventTarget securityEventLevel = true ∧
    envFilterEnabled performanceEnvFilter securityEventTarget securityEventLevel = true := by
  decide

/-- Claim C5, counterexample: a field named "message" recorded through
`record_i64` is inserted into the generic fields mapping under the key
"message" (and the message slot stays empty) — the claim's clause that the
field named "message" is excluded from the generic mapping fails. -/
theorem c5_numeric_message_counterexample :
    lookupKV (runVisitor [("message", FieldValue.fi64 7)]).fields "message" =
        some (JsonValue.jnum 7) ∧
      (runVisitor [("message", FieldValue.fi64 7)]).message = none := by
  decide

/-- Claim C5, amended: every field whose name is not "message" is recorded
in the generic mapping under its own name and its value never reaches the
message slot (the slot's value always comes from a field named "message"
received by `record_str` or `record_debug`); a field named "message" is
excluded from the generic mapping only when it is recorded via
`record_str` or `record_debug` — the numeric/boolean callbacks insert it. -/
theorem c5_visitor_field_routing :
    (∀ ev : List (String × FieldValue), ∀ p ∈ ev, fieldName p ≠ "message" →
        hasKey (runVisitor ev).fields (fieldName p) = true) ∧
    (∀ (ev : List (String × FieldValue)) (s : String),
        (runVisitor ev).message = some s →
        ("message", FieldValue.fstr s) ∈ ev ∨ ("message", FieldValue.fdebug s) ∈ ev) ∧
    (∀ ev : List (String × FieldValue),
        (∀ p ∈ ev, fieldName p = "message" →
          ∃ s, p.2 = FieldValue.fstr s ∨ p.2 = FieldValue.fdebug s) →
        hasKey (runVisitor ev).fields "message" = false) := by
  refine ⟨?_, ?_, ?_⟩
  · intro ev p hp hn
    exact runVisitorFrom_records_field _ _ hp hn
  · intro ev s h
    rcases runVisitorFrom_message_origin _ _ h with h₀ | h₁ | h₁
    · simp [JsonVisitor.new] at h₀
    · exact Or.inl h₁
    · exact Or.inr h₁
  · intro ev hall
    exact runVisitorFrom_no_message_key _ _ hall (by simp [JsonVisitor.new, hasKey])

/-- Witness for `c5_visitor_field_routing` at a concrete event. -/
theorem c5_visitor_field_routing_witness :
    hasKey (runVisitor [("user_id", FieldValue.fstr "alice")]).fields "user_id" = true :=
  c5_visitor_field_routing.1 [("user_id", FieldValue.fstr "alice")]
    ("user_id", FieldValue.fstr "alice") (by decide) (by decide)

/-- Claim C6: when an event carries a field named "message" whose value is
the plain string `s` (and every field named "message" carries that same
plain string), the formatted record's `message` is exactly `s`, with no
re-formatting. -/
theorem c6_message_verbatim (now : String) (envVar : Option String)
    (md : Metadata) (ctx : Option SpanData) (ev : List (String × FieldValue))
    (s : String) (hmem : ("message", FieldValue.fstr s) ∈ ev)
    (hall : ∀ p ∈ ev, fieldName p = "message" → p.2 = FieldValue.fstr s) :
    lookupKV (format_event now envVar md ctx ev) "message" = some (.jstr s) := by
  have hslot : (runVisitor ev).message = some s :=
    runVisitorFrom_message_sets _ _ _ hmem hall
  have hfld : hasKey (runVisitor ev).fields "message" = false :=
    runVisitorFrom_no_message_key _ _
      (fun p hp hm => ⟨s, Or.inl (hall p hp hm)⟩)
      (by simp [JsonVisitor.new, hasKey])
  unfold format_event
  rw [lookupKV_addLoc_ne _ _ (by decide) (by decide),
    lookupKV_addFields_not_key _ _ _ hfld, hslot, lookupKV_addMessage_message]

/-- Witness for `c6_message_verbatim` at a concrete event. -/
theorem c6_message_verbatim_witness :
    lookupKV
        (format_event "t" none ⟨Level.info, "app", none, none⟩ none
          [("message", FieldValue.fstr "hi"), ("user_id", FieldValue.fstr "alice")])
        "message" = some (.jstr "hi") :=
  c6_message_verbatim "t" none ⟨Level.info, "app", none, none⟩ none
    [("message", FieldValue.fstr "hi"), ("user_id", FieldValue.fstr "alice")]
    "hi" (by decide) (by decide)

/-- Claim C3, counterexample: on an event whose fields collide on the name
"message" (a plain-string one filling the message slot and an i64 one
landing in the generic mapping), the formatter writes the message slot
value first and the visitor field afterwards, so the visitor field wins —
the record's `message` is `7`, not the slot value "hello".  The claim says
the message value wins such a collision. -/
theorem c3_message_collision_counterexample :
    (runVisitor [("message", FieldValue.fstr "hello"),
        ("message", FieldValue.fi64 7)]).message = some "hello" ∧
    lookupKV
        (format_event "t" none ⟨Level.info, "app", none, none⟩ none
          [("message", FieldValue.fstr "hello"), ("message", FieldValue.fi64 7)])
        "message" = some (JsonValue.jnum 7) := by
  decide

/-- Claim C3, amended: the merge precedence is base metadata → context
fields → message → visitor-extracted fields (→ file/line), i.e. on a key
collision between a visitor-extracted field and the message slot the
visitor field wins; for every event whose field names are pairwise
distinct (as tracing events are) the two steps touch disjoint keys, and
the resulting object coincides, key for key, with the spec-ordered merge
in which the message is applied after the visitor fields. -/
theorem c3_merge_precedence :
    (∀ (now : String) (envVar : Option String) (md : Metadata)
        (ctx : Option SpanData) (ev : List (String × FieldValue)),
        (ev.map fieldName).Nodup → ∀ k,
        lookupKV (format_event now envVar md ctx ev) k =
          lookupKV (formatEventSpecOrder now envVar md ctx ev) k) ∧
    (∀ (now : String) (envVar : Option String) (md : Metadata)
        (ctx : Option SpanData) (ev : List (String × FieldValue)) (v : JsonValue),
        lookupKV (runVisitor ev).fields "message" = some v →
        lookupKV (format_event now envVar md ctx ev) "message" = some v) := by
  constructor
  · intro now envVar md ctx ev hnd k
    unfold format_event formatEventSpecOrder
    refine recordEquiv_addLoc md ?_ k
    refine addFields_addMessage_swap _ _ _ ?_
    intro hs
    exact runVisitor_slot_fields_disjoint ev hnd hs
  · intro now envVar md ctx ev v hv
    unfold format_event
    rw [lookupKV_addLoc_ne _ _ (by decide) (by decide)]
    exact lookupKV_addFields_of_nodup _ _ (runVisitor_keys_nodup ev) hv

/-- Witness for `c3_merge_precedence` at a concrete event. -/
theorem c3_merge_precedence_witness :
    lookupKV
        (format_event "t" none ⟨Level.info, "app", none, none⟩ none
          [("user_id", FieldValue.fstr "alice")]) "user_id" =
      lookupKV
        (formatEventSpecOrder "t" none ⟨Level.info, "app", none, none⟩ none
          [("user_id", FieldValue.fstr "alice")]) "user_id" :=
  c3_merge_precedence.1 "t" none ⟨Level.info, "app", none, none⟩ none
    [("user_id", FieldValue.fstr "alice")] (by decide) "user_id"

/-- Claim C7: for `log_performance_metric` called with
`operation = "checkout"`, `duration_ms = 42.5`, `success = true`, the
formatted record (whatever the ambient span, environment and metadata)
carries `performance_metric = true`, `operation = "checkout"`,
`duration_ms = 42.5` with the numeric value passed through unchanged, and
`success = true`. -/
theorem c7_performance_metric_record (now : String) (envVar : Option String)
    (md : Metadata) (ctx : Option SpanData) (detailsDebug : String) :
    lookupKV
        (format_event now envVar md ctx
          (performanceMetricFields ⟨"checkout", 42.5, true, detailsDebug⟩))
        "performance_metric" = some (.jbool true) ∧
    lookupKV
        (format_event now envVar md ctx
          (performanceMetricFields ⟨"checkout", 42.5, true, detailsDebug⟩))
        "operation" = some (.jstr "checkout") ∧
    lookupKV
        (format_event now envVar md ctx
          (performanceMetricFields ⟨"checkout", 42.5, true, detailsDebug⟩))
        "duration_ms" = some (.jnum 42.5) ∧
    lookupKV
        (format_event now envVar md ctx
          (performanceMetricFields ⟨"checkout", 42.5, true, detailsDebug⟩))
        "success" = some (.jbool true) := by
  have hv : runVisitor (performanceMetricFields ⟨"checkout", (42.5 : ℚ), true, detailsDebug⟩) =
      ⟨some "Performance metric recorded",
        [("operation", .jstr "checkout"), ("duration_ms", .jnum 42.5),
         ("success", .jbool true), ("details", .jstr detailsDebug),
         ("performance_metric", .jbool true)]⟩ := rfl
  refine ⟨?_, ?_, ?_, ?_⟩ <;>
  · unfold format_event
    rw [hv]
    rw [lookupKV_addLoc_ne _ _ (by decide) (by decide)]
    simp only [addFields_cons, addFields_nil]
    simp +decide [lookupKV_insertKV_ne, lookupKV_addMessage_ne, lookupKV_addContext_ne]

/-- Claim C8: `init_logging` succeeds (and only then installs the sink
set, which is its success value) exactly when the log directory creation
and both sink directive parses succeed, and it fails exactly when the
directory cannot be created or one of the directive literals fails to
parse; a failure of `EnvFilter::try_from_default_env` never fails
initialization (the code falls back to the programmatic level). -/
theorem c8_init_logging_result (w : InitWorld) (log_level : String)
    (json_format : Bool) :
    ((∃ s, init_logging w log_level json_format = Except.ok s) ↔
      ((∃ u, w.createDirResult = Except.ok u) ∧
        (∃ u, w.secDirectiveParse = Except.ok u) ∧
        (∃ u, w.perfDirectiveParse = Except.ok u))) ∧
    ((∃ e, init_logging w log_level json_format = Except.error e) ↔
      ((∃ e, w.createDirResult = Except.error e) ∨
        (∃ e, w.secDirectiveParse = Except.error e) ∨
        (∃ e, w.perfDirectiveParse = Except.error e))) := by
  rcases w with ⟨cd, ef, sp, pp⟩
  rcases cd with e₁ | u₁ <;> rcases sp with e₂ | u₂ <;> rcases pp with e₃ | u₃ <;>
    simp [init_logging, Bind.bind, Except.bind, pure, Except.pure]

/-- Claim C9: the `environment` value of every formatted record (for
events that do not themselves carry a field named "environment") is the
value of the `ENVIRONMENT` variable when it is readable, and the literal
"development" when it is unset or unreadable. -/
theorem c9_environment_default (now : String) (envVar : Option String)
    (md : Metadata) (ctx : Option SpanData) (ev : List (String × FieldValue))
    (hsh : ∀ p ∈ ev, fieldName p ≠ "environment") :
    (envVar = none →
      lookupKV (format_event now envVar md ctx ev) "environment" =
        some (.jstr "development")) ∧
    (∀ val, envVar = some val →
      lookupKV (format_event now envVar md ctx ev) "environment" =
        some (.jstr val)) := by
  have h : lookupKV (format_event now envVar md ctx ev) "environment" =
      some (.jstr (envVar.getD "development")) := by
    unfold format_event
    rw [lookupKV_addLoc_ne _ _ (by decide) (by decide),
      lookupKV_addFields_not_key _ _ _ (runVisitor_no_key ev "environment" hsh),
      lookupKV_addMessage_ne _ _ (by decide),
      lookupKV_addContext_ne _ _ (by decide) (by decide)]
    rfl
  constructor
  · intro he
    rw [h, he]
    rfl
  · intro val he
    rw [h, he]
    rfl

/-- Witness for `c9_environment_default` at a concrete event. -/
theorem c9_environment_default_witness :
    lookupKV
        (format_event "t" (some "production") ⟨Level.info, "app", none, none⟩ none
          [("user_id", FieldValue.fstr "alice")]) "environment" =
      some (.jstr "production") :=
  (c9_environment_default "t" (some "production") ⟨Level.info, "app", none, none⟩
    none [("user_id", FieldValue.fstr "alice")] (by decide)).2 "production" rfl

/-- Claim C10: `error_chain` produces exactly the rendering of the error
followed by the renderings of its transitive sources, outermost to
innermost (a single-element chain when there is no source), and both
`log_error_with_context` and `log_critical_error` emit records whose
`error_chain` field carries (the Debug rendering of) that chain. -/
theorem c10_error_chain_field :
    (∀ e, error_chain e = renderChainSpec e) ∧
    (∀ e, e.source = none → error_chain e = [e.render]) ∧
    (∀ (now : String) (envVar : Option String) (md : Metadata)
        (ctx : Option SpanData) (e : ErrorModel) (context detailsDebug : String),
      lookupKV
          (format_event now envVar md ctx
            (logErrorWithContextFields e context detailsDebug))
          "error_chain" = some (.jstr (rustVecDebug (error_chain e))) ∧
      lookupKV
          (format_event now envVar md ctx
            (logCriticalErrorFields e context detailsDebug))
          "error_chain" = some (.jstr (rustVecDebug (error_chain e)))) := by
  refine ⟨error_chain_eq_renderChainSpec, ?_, ?_⟩
  · intro e h
    cases e with
    | leaf m => rfl
    | wrap m src => simp [ErrorModel.source] at h
  · intro now envVar md ctx e context detailsDebug
    constructor
    · have hv : runVisitor (logErrorWithContextFields e context detailsDebug) =
          ⟨some "Error occurred with context",
            [("error", .jstr e.render), ("context", .jstr context),
             ("details", .jstr detailsDebug),
             ("error_chain", .jstr (rustVecDebug (error_chain e)))]⟩ := rfl
      unfold format_event
      rw [hv]
      rw [lookupKV_addLoc_ne _ _ (by decide) (by decide)]
      simp only [addFields_cons, addFields_nil]
      simp +decide [lookupKV_insertKV_ne, lookupKV_addMessage_ne, lookupKV_addContext_ne]
    · have hv : runVisitor (logCriticalErrorFields e context detailsDebug) =
          ⟨some "Critical error occurred",
            [("error", .jstr e.render), ("context", .jstr context),
             ("details", .jstr detailsDebug),
             ("error_chain", .jstr (rustVecDebug (error_chain e))),
             ("critical", .jbool true)]⟩ := rfl
      unfold format_event
      rw [hv]
      rw [lookupKV_addLoc_ne _ _ (by decide) (by decide)]
      simp only [addFields_cons, addFields_nil]
      simp +decide [lookupKV_insertKV_ne, lookupKV_addMessage_ne, lookupKV_addContext_ne]

/-- Witness for `c10_error_chain_field` at a concrete error with a source. -/
theorem c10_error_chain_field_witness :
    error_chain (ErrorModel.leaf "boom") = [(ErrorModel.leaf "boom").render] :=
  c10_error_chain_field.2.1 (ErrorModel.leaf "boom") rfl

theorem hasKey_eq_isSome (r : JsonRecord) (k : String) :
    hasKey r k = (lookupKV r k).isSome := rfl

/-- Claim C4: for every event (whose own field names do not shadow the
formatter's conditional keys), the emitted output is the serialized JSON
object followed by a newline and containing no other newline (exactly one
newline-terminated line); the keys `timestamp`, `level`, `target`,
`service`, `environment` are always present; `correlation_id`, `span`,
`file` and `line` are present exactly when the corresponding datum is
available; and `message` is present exactly when the event supplied a
field named "message". -/
theorem c4_record_contract (now : String) (envVar : Option String)
    (md : Metadata) (ctx : Option SpanData) (ev : List (String × FieldValue))
    (hsh : ∀ p ∈ ev, fieldName p ≠ "correlation_id" ∧ fieldName p ≠ "span" ∧
      fieldName p ≠ "file" ∧ fieldName p ≠ "line") :
    ((formatEventLine now envVar md ctx ev).count '\n' = 1 ∧
      (formatEventLine now envVar md ctx ev).getLast? = some '\n') ∧
    (hasKey (format_event now envVar md ctx ev) "timestamp" = true ∧
      hasKey (format_event now envVar md ctx ev) "level" = true ∧
      hasKey (format_event now envVar md ctx ev) "target" = true ∧
      hasKey (format_event now envVar md ctx ev) "service" = true ∧
      hasKey (format_event now envVar md ctx ev) "environment" = true) ∧
    (hasKey (format_event now envVar md ctx ev) "correlation_id" = true ↔
      ∃ sp, ctx = some sp ∧ (getCorrelationIdExt sp.extensions).isSome = true) ∧
    (hasKey (format_event now envVar md ctx ev) "span" = true ↔ ctx.isSome = true) ∧
    (hasKey (format_event now envVar md ctx ev) "file" = true ↔ md.file.isSome = true) ∧
    (hasKey (format_event now envVar md ctx ev) "line" = true ↔ md.line.isSome = true) ∧
    (hasKey (format_event now envVar md ctx ev) "message" = true ↔
      "message" ∈ ev.map fieldName) := by
  have hno : ∀ k, k = "correlation_id" ∨ k = "span" ∨ k = "file" ∨ k = "line" →
      hasKey (runVisitor ev).fields k = false := by
    intro k hk
    refine runVisitor_no_key ev k ?_
    intro p hp
    rcases hsh p hp with ⟨h₁, h₂, h₃, h₄⟩
    rcases hk with h | h | h | h <;> (subst h; assumption)
  refine ⟨formatEventLine_single_line now envVar md ctx ev, ?_, ?_, ?_, ?_, ?_, ?_⟩
  · refine ⟨?_, ?_, ?_, ?_, ?_⟩ <;>
    · unfold format_event
      exact hasKey_addLoc_mono _ _ (hasKey_addFields_mono _ _
        (hasKey_addMessage_mono _ _ (hasKey_addContext_mono _ _ (by rfl))))
  · -- correlation_id: present iff the current span has a CorrelationId extension
    have hcor : lookupKV (format_event now envVar md ctx ev) "correlation_id" =
        lookupKV (addContext ctx (baseRecord now envVar md)) "correlation_id" := by
      unfold format_event
      rw [lookupKV_addLoc_ne _ _ (by decide) (by decide),
        lookupKV_addFields_not_key _ _ _ (hno _ (Or.inl rfl)),
        lookupKV_addMessage_ne _ _ (by decide)]
    rw [hasKey_eq_isSome, hcor]
    cases ctx with
    | none =>
      have hb : lookupKV (baseRecord now envVar md) "correlation_id" = none := rfl
      simp [addContext, hb]
    | some sp =>
      rw [lookupKV_addContext_correlation]
      cases hext : getCorrelationIdExt sp.extensions with
      | none =>
        have hb : lookupKV (baseRecord now envVar md) "correlation_id" = none := rfl
        simp [hb, hext]
      | some id => simp [hext]
  · -- span: present iff inside a span
    have hspan : lookupKV (format_event now envVar md ctx ev) "span" =
        lookupKV (addContext ctx (baseRecord now envVar md)) "span" := by
      unfold format_event
      rw [lookupKV_addLoc_ne _ _ (by decide) (by decide),
        lookupKV_addFields_not_key _ _ _ (hno _ (Or.inr (Or.inl rfl))),
        lookupKV_addMessage_ne _ _ (by decide)]
    rw [hasKey_eq_isSome, hspan]
    cases ctx with
    | none =>
      have hb : lookupKV (baseRecord now envVar md) "span" = none := rfl
      simp [addContext, hb]
    | some sp =>
      rw [lookupKV_addContext_span]
      simp
  · -- file: present iff the metadata has one
    rw [hasKey_eq_isSome]
    unfold format_event
    rw [lookupKV_addLoc_file]
    cases hmd : md.file with
    | some f => simp
    | none =>
      rw [lookupKV_addFields_not_key _ _ _ (hno _ (Or.inr (Or.inr (Or.inl rfl)))),
        lookupKV_addMessage_ne _ _ (by decide),
        lookupKV_addContext_ne _ _ (by decide) (by decide)]
      have hb : lookupKV (baseRecord now envVar md) "file" = none := rfl
      simp [hb, hmd]
  · -- line: present iff the metadata has one
    rw [hasKey_eq_isSome]
    unfold format_event
    rw [lookupKV_addLoc_line]
    cases hmd : md.line with
    | some n => simp
    | none =>
      rw [lookupKV_addFields_not_key _ _ _ (hno _ (Or.inr (Or.inr (Or.inr rfl)))),
        lookupKV_addMessage_ne _ _ (by decide),
        lookupKV_addContext_ne _ _ (by decide) (by decide)]
      have hb : lookupKV (baseRecord now envVar md) "line" = none := rfl
      simp [hb, hmd]
  · -- message: present iff the event supplied a field named "message"
    have hbase : hasKey (addContext ctx (baseRecord now envVar md)) "message" = false := by
      rw [hasKey_eq_isSome, lookupKV_addContext_ne _ _ (by decide) (by decide)]
      rfl
    have hchain : hasKey (format_event now envVar md ctx ev) "message" = true ↔
        hasKey (runVisitor ev).fields "message" = true ∨
          (runVisitor ev).message.isSome = true := by
      unfold format_event
      rw [show hasKey
            (addLoc md (addFields (runVisitor ev).fields
              (addMessage (runVisitor ev).message
                (addContext ctx (baseRecord now envVar md))))) "message"
          = hasKey (addFields (runVisitor ev).fields
              (addMessage (runVisitor ev).message
                (addContext ctx (baseRecord now envVar md)))) "message" by
        rw [hasKey_eq_isSome, hasKey_eq_isSome,
          lookupKV_addLoc_ne _ _ (by decide) (by decide)]]
      rw [hasKey_addFields]
      rw [hasKey_addMessage_message, hbase]
      simp
    rw [hchain]
    constructor
    · intro h
      rcases h with h | h
      · rcases runVisitorFrom_hasKey_fields_sub _ _ h with h' | h'
        · simp [JsonVisitor.new, hasKey] at h'
        · exact h'
      · rcases Option.isSome_iff_exists.mp h with ⟨s, hs⟩
        rcases runVisitorFrom_message_origin _ _ hs with h₀ | h₁ | h₁
        · simp [JsonVisitor.new] at h₀
        · exact List.mem_map_of_mem fieldName h₁
        · exact List.mem_map_of_mem fieldName h₁
    · intro h
      rcases runVisitorFrom_message_present JsonVisitor.new ev h with h' | h'
      · exact Or.inr h'
      · exact Or.inl h'

/-- Witness for `c4_record_contract` at a concrete security event inside a
correlation span. -/
theorem c4_record_contract_witness :
    (∀ p ∈ securityEventFields .authenticationFailure (some "alice") "dbg",
      fieldName p ≠ "correlation_id" ∧ fieldName p ≠ "span" ∧
        fieldName p ≠ "file" ∧ fieldName p ≠ "line") ∧
    (hasKey
        (format_event "t" (some "production")
          ⟨Level.warn, "security", some "src/logging/rust_logging.rs", some 270⟩
          (some (withCorrelationIdSpan "X"))
          (securityEventFields .authenticationFailure (some "alice") "dbg"))
        "timestamp" = true ∧
      hasKey
        (format_event "t" (some "production")
          ⟨Level.warn, "security", some "src/logging/rust_logging.rs", some 270⟩
          (some (withCorrelationIdSpan "X"))
          (securityEventFields .authenticationFailure (some "alice") "dbg"))
        "environment" = true) :=
  ⟨by decide,
    (c4_record_contract "t" (some "production")
      ⟨Level.warn, "security", some "src/logging/rust_logging.rs", some 270⟩
      (some (withCorrelationIdSpan "X"))
      (securityEventFields .authenticationFailure (some "alice") "dbg")
      (by decide)).2.1.1,
    (c4_record_contract "t" (some "production")
      ⟨Level.warn, "security", some "src/logging/rust_logging.rs", some 270⟩
      (some (withCorrelationIdSpan "X"))
      (securityEventFields .authenticationFailure (some "alice") "dbg")
      (by decide)).2.1.2.2.2.2⟩

end RustLogging
